import Mathlib

/-!
Shallow embedding of the zsh_history_cleaner core
(src/core/HistoryCleaner.cpp, src/core/SecureDelete.cpp,
src/utils/Utils.cpp) and proofs about it.

Files are modelled as lists of characters, the line loop of
HistoryCleaner::processHistory as a fold over the list of lines
produced by a getline model, and the file-system effects of the
mutating tail (temporary file, backup, secure delete, final rename)
as a small record of optional file contents driven by an environment
of per-operation success flags.
-/

namespace ZHC

/-- The space class of the std regex \s : space, tab, newline,
carriage return, vertical tab, form feed. -/
def isSpaceChar (c : Char) : Bool :=
  c = ' ' || c = '\t' || c = '\n' || c = '\r' || c = '\x0b' || c = '\x0c'

/-- The sequence of lines std::getline yields on a character stream:
each line runs up to a newline (consumed, not included) or to the end
of the stream; an empty stream yields no line. Written as structural
recursion on the stream: a newline closes an (initially empty) line
in front of the lines of the rest, any other character is prepended
to the first line of the rest (which exists once the rest is
nonempty). -/
def getLines : List Char → List (List Char)
  | [] => []
  | c :: rest =>
      if c = '\n' then [] :: getLines rest
      else
        match getLines rest with
        | [] => [[c]]
        | l :: ls => (c :: l) :: ls

/-- The carriage-return normalization the read loop applies to every
line: if the line ends in a carriage return, drop it
(HistoryCleaner.cpp lines 1075-1077). -/
def stripCR (l : List Char) : List Char :=
  if l.getLast? = some '\r' then l.dropLast else l

/-- Header-line matcher for the regex
colon, digits, colon, digits, semicolon with optional surrounding
space (HistoryCleaner.cpp line 42). On success returns the first
capture group: the digit string of the epoch timestamp. The trailing
dot-star of the regex rejects embedded line terminators, which the
final List.all check mirrors. -/
def parseHeader (line : List Char) : Option (List Char) :=
  let s1 := line.dropWhile isSpaceChar
  match s1 with
  | ':' :: s2 =>
      let s3 := s2.dropWhile isSpaceChar
      let ds := s3.takeWhile Char.isDigit
      let s4 := s3.dropWhile Char.isDigit
      if ds.isEmpty then none
      else
        match s4 with
        | ':' :: s5 =>
            let ds2 := s5.takeWhile Char.isDigit
            let s6 := s5.dropWhile Char.isDigit
            if ds2.isEmpty then none
            else
              match s6.dropWhile isSpaceChar with
              | ';' :: rest =>
                  if rest.all (fun c => c ≠ '\n' && c ≠ '\r') then some ds
                  else none
              | _ => none
        | _ => none
  | _ => none

/-- Whether a line starts a new history entry
(regex_match against historyEntryRegex_). -/
def isHeaderLine (line : List Char) : Bool :=
  (parseHeader line).isSome

/-- Numeric value of a digit string, most significant digit first. -/
def digitsToNat (ds : List Char) : Nat :=
  ds.foldl (fun acc c => acc * 10 + (c.toNat - '0'.toNat)) 0

/-- Largest value representable in the signed 64-bit type behind
std::stoll and time_t. -/
def LLONG_MAX : Nat := 2 ^ 63 - 1

/-- Model of std::stoll on the captured digit string: the digits are
guaranteed nonempty by the regex, so the only failure is the
out_of_range exception when the value exceeds the 64-bit signed
range. -/
def stollDigits (ds : List Char) : Option Int :=
  if digitsToNat ds ≤ LLONG_MAX then some (digitsToNat ds) else none

/-- Command-text extraction from the header line
(HistoryCleaner.cpp lines 985-988): the text after the first
semicolon, with leading spaces and tabs erased. Returns none when the
line holds no semicolon, mirroring find returning npos. -/
def extractCommand (line : List Char) : Option (List Char) :=
  if line.contains ';' then
    some (((line.dropWhile (fun c => c ≠ ';')).drop 1).dropWhile
      (fun c => c = ' ' || c = '\t'))
  else none

/-- Whether the first list is a leading segment of the second,
element by element. -/
def leadsWith : List Char → List Char → Bool
  | [], _ => true
  | _ :: _, [] => false
  | n :: ns, h :: hs => n = h && leadsWith ns hs

/-- Model of std::string::find(keyword) != npos: the needle occurs as
a contiguous run somewhere in the haystack. An empty needle is found
at position zero. -/
def findSub (needle : List Char) : List Char → Bool
  | [] => needle.isEmpty
  | c :: rest => leadsWith needle (c :: rest) || findSub needle rest

/-- The configuration the CLI layer hands the core: the inclusive
window bounds, the keyword list, the compiled patterns (modelled as
abstract match predicates over the command text), and the dry-run and
backup flags. -/
structure Config where
  startT : Int
  endT : Int
  keywords : List (List Char)
  regexes : List (List Char → Bool)
  dryRun : Bool
  doBackup : Bool

/-- Outcome of processCommandBlock on one block: the deletion verdict
it returns, the increments it applies to the kept and deleted
counters, and whether it emitted a warning. -/
structure BlockResult where
  shouldDelete : Bool
  keptInc : Nat
  deletedInc : Nat
  warned : Bool
deriving DecidableEq, Repr

/-- The text before the first newline of a block: the header line
(block.substr(0, firstLineEnd) in the source). -/
def firstLineOf (block : List Char) : List Char :=
  block.takeWhile (fun c => c ≠ '\n')

/-- Embedding of HistoryCleaner::processCommandBlock
(HistoryCleaner.cpp lines 958-1038). The block is the raw bytes of
one accumulated entry, each line newline-terminated. -/
def processCommandBlock (cfg : Config) (block : List Char) : BlockResult :=
  if ¬ block.contains '\n' then ⟨false, 1, 0, true⟩
  else
    let firstLine := firstLineOf block
    match parseHeader firstLine with
    | none => ⟨false, 1, 0, true⟩
    | some ds =>
        match stollDigits ds with
        | none => ⟨false, 1, 0, true⟩
        | some ts =>
            if cfg.startT ≤ ts ∧ ts ≤ cfg.endT then
              let shouldDelete :=
                match extractCommand firstLine with
                | none => false
                | some cmd =>
                    if cfg.keywords.isEmpty && cfg.regexes.isEmpty then true
                    else
                      if cfg.keywords.any (fun k => findSub k cmd) then true
                      else cfg.regexes.any (fun r => r cmd)
              if shouldDelete then ⟨true, 0, 1, false⟩
              else ⟨false, 1, 0, false⟩
            else ⟨false, 1, 0, false⟩

/-- Running state of the read loop of HistoryCleaner::processHistory
(lines 1052-1116): the accumulated surviving entries, the kept and
deleted counters, the block being accumulated, and the number of
warnings printed. The recs field is ghost instrumentation recording
every flushed record (preamble lines and command blocks) in order, to
state parse losslessness; the source does not materialize it. -/
structure ProcState where
  keptEntries : List (List Char)
  recs : List (List Char)
  keptCount : Nat
  deletedCount : Nat
  current : List Char
  warnings : Nat
deriving DecidableEq, Repr

def initState : ProcState := ⟨[], [], 0, 0, [], 0⟩

/-- Flushing the accumulated block through processCommandBlock
(HistoryCleaner.cpp lines 1084-1090 and 1110-1116): counters are
updated, and in mutating mode a kept block is appended to the
surviving entries. The caller resets or keeps the accumulator. -/
def flushBlock (cfg : Config) (st : ProcState) : ProcState :=
  let r := processCommandBlock cfg st.current
  { st with
    keptEntries :=
      if ¬ r.shouldDelete ∧ ¬ cfg.dryRun then st.keptEntries ++ [st.current]
      else st.keptEntries
    recs := st.recs ++ [st.current]
    keptCount := st.keptCount + r.keptInc
    deletedCount := st.deletedCount + r.deletedInc
    warnings := st.warnings + (if r.warned then 1 else 0) }

/-- One iteration of the read loop on a carriage-return-stripped
line: a header line flushes the previous block (if any) and starts a
new one; a non-header line continues the current block, or, before
the first header, is kept on its own with a warning
(HistoryCleaner.cpp lines 1079-1107). -/
def procLine (cfg : Config) (st : ProcState) (line : List Char) : ProcState :=
  if isHeaderLine line then
    let st1 := if st.current ≠ [] then flushBlock cfg st else st
    { st1 with current := line ++ ['\n'] }
  else
    if st.current ≠ [] then
      { st with current := st.current ++ line ++ ['\n'] }
    else
      { st with
        keptEntries :=
          if ¬ cfg.dryRun then st.keptEntries ++ [line ++ ['\n']]
          else st.keptEntries
        recs := st.recs ++ [line ++ ['\n']]
        keptCount := st.keptCount + 1
        warnings := st.warnings + 1 }

/-- The whole read loop over a list of lines, followed by the flush
of the final block (HistoryCleaner.cpp lines 1110-1116). -/
def procLines (cfg : Config) (lines : List (List Char)) : ProcState :=
  let st := lines.foldl (procLine cfg) initState
  if st.current ≠ [] then flushBlock cfg st else st

/-- Parsing and filtering a raw input file: split into getline lines,
strip each trailing carriage return, run the loop. -/
def parseInput (cfg : Config) (input : List Char) : ProcState :=
  procLines cfg ((getLines input).map stripCR)

/-- The three on-disk locations the mutating path touches: the
original history file, the randomized-name temporary replacement, and
the optional backup copy. none means the path does not exist. -/
structure FS where
  original : Option (List Char)
  temp : Option (List Char)
  backup : Option (List Char)
deriving DecidableEq, Repr

/-- Success flags for the fallible file-system operations of the
mutating path, injected so every failure combination can be
examined. -/
structure IOEnv where
  tempCreateOk : Bool
  writeOk : Bool
  backupOk : Bool
  eraseOk : Bool
  renameOk : Bool
deriving DecidableEq, Repr

/-- Embedding of HistoryCleaner::performCleanup
(HistoryCleaner.cpp lines 1205-1234): optional backup copy (failure
aborts with the original untouched), then secure delete of the
original. On erase failure the original is reported still present
(possibly corrupted by incomplete overwriting, which this model does not
track; no claim rests on its content there). -/
def performCleanup (cfg : Config) (env : IOEnv) (fs : FS) : Bool × FS :=
  if cfg.dryRun then (true, fs)
  else
    let step2 : Option FS :=
      if cfg.doBackup then
        if env.backupOk then some { fs with backup := fs.original } else none
      else some fs
    match step2 with
    | none => (false, fs)
    | some fs1 =>
        if env.eraseOk then (true, { fs1 with original := none })
        else (false, fs1)

/-- Result of a full processHistory run: the boolean the function
returns, the final file-system state, and the loop state (counters,
survivors, records). -/
structure RunResult where
  ok : Bool
  fs : FS
  st : ProcState
deriving Repr

/-- Embedding of HistoryCleaner::processHistory
(HistoryCleaner.cpp lines 1040-1175). Dry-run returns right after the
counting pass with no file-system effect. Otherwise: write survivors
to the temporary file (write failure runs cleanup, which removes the
temporary), run performCleanup (backup, then secure delete of the
original; failure runs cleanup), and finally rename the temporary
onto the original path — on rename failure the code also runs
cleanup, removing the temporary file, and returns the same generic
false as any other failure. -/
def processHistory (cfg : Config) (env : IOEnv) (input : List Char)
    (fs : FS) : RunResult :=
  let st := parseInput cfg input
  if cfg.dryRun then ⟨true, fs, st⟩
  else
    if ¬ env.tempCreateOk then ⟨false, fs, st⟩
    else
      let fs1 : FS := { fs with temp := some st.keptEntries.flatten }
      if ¬ env.writeOk then ⟨false, { fs1 with temp := none }, st⟩
      else
        let r2 := performCleanup cfg env fs1
        if ¬ r2.1 then ⟨false, { r2.2 with temp := none }, st⟩
        else
          if env.renameOk then
            ⟨true, { r2.2 with original := r2.2.temp, temp := none }, st⟩
          else
            ⟨false, { r2.2 with temp := none }, st⟩

/-- The chunk size of the overwrite loop
(Constants.h: SHRED_BUFFER_SIZE). -/
def SHRED_BUFFER_SIZE : Nat := 4096

/-- Environment of a secureDelete call (SecureDelete.cpp): the
answers of the status checks and the success of each fallible
operation. seekOk is indexed by the 1-based pass number; writeOk by
pass number and 0-based chunk index. plainRemoveOk is the result of
the best-effort fs::remove on every error path, finalRemoveOk of the
fs::remove after the passes, and renameOk of the rename to the
randomized sibling name. -/
structure EraseEnv where
  statOk : Bool
  regular : Bool
  fileExists : Bool
  sizeOk : Bool
  size : Nat
  openOk : Bool
  seekOk : Nat → Bool
  writeOk : Nat → Nat → Bool
  plainRemoveOk : Bool
  renameOk : Bool
  finalRemoveOk : Bool

/-- The write loop of one pass (SecureDelete.cpp lines 129-144):
chunks of at most SHRED_BUFFER_SIZE bytes until the whole original
length is written; the first failed or short write stops the loop.
Returns whether the pass completed and how many bytes it wrote. -/
def writeLoop (wOk : Nat → Bool) (chunk : Nat) (remaining : Nat) :
    Bool × Nat :=
  if remaining = 0 then (true, 0)
  else
    let ws := min SHRED_BUFFER_SIZE remaining
    if wOk chunk then
      let p := writeLoop wOk (chunk + 1) (remaining - ws)
      (p.1, ws + p.2)
    else (false, 0)
termination_by remaining
decreasing_by
  have h1 : 0 < min SHRED_BUFFER_SIZE remaining := by
    simp only [SHRED_BUFFER_SIZE]
    omega
  omega

/-- Outcome of the pass loop: number of fully completed passes, total
bytes written, and whether every requested pass completed. -/
structure PassOutcome where
  passes : Nat
  bytes : Nat
  allOk : Bool
deriving DecidableEq, Repr

/-- The pass loop of SecureDelete.cpp lines 119-150, starting at pass
number start with n passes left: a failed seek or a failed write
abandons the remaining passes. fsync failure only warns and is not
modelled as a failure. -/
def runPassesFrom (env : EraseEnv) (start : Nat) : Nat → PassOutcome
  | 0 => ⟨0, 0, true⟩
  | n + 1 =>
      if ¬ env.seekOk start then ⟨0, 0, false⟩
      else
        let w := writeLoop (env.writeOk start) 0 env.size
        if ¬ w.1 then ⟨0, w.2, false⟩
        else
          let rest := runPassesFrom env (start + 1) n
          ⟨rest.passes + 1, w.2 + rest.bytes, rest.allOk⟩

/-- Result of a secureDelete call: the boolean it returns, the number
of completed overwrite passes, the total bytes written, whether the
original path still exists afterwards, whether the randomized-name
path exists afterwards, and whether the rename onto the randomized
name happened. -/
structure EraseResult where
  ok : Bool
  passesCompleted : Nat
  bytesWritten : Nat
  origStays : Bool
  obscureStays : Bool
  renamedFirst : Bool
deriving DecidableEq, Repr

/-- Embedding of secureDelete (SecureDelete.cpp lines 19-173).
Early branches: status error returns false; a non-regular existing
path gets a plain remove; an absent path is success; size failure,
empty file and open failure each get a plain remove whose result is
returned. The pass loop runs for pass numbers 1..passes (so a
non-positive pass count runs no pass); any seek or write error
abandons the remaining passes and returns the result of a best-effort
plain remove. After the passes the file is renamed to a randomized
sibling (best effort) and removed; the remove result is the return
value. -/
def secureDelete (env : EraseEnv) (passes : Int) : EraseResult :=
  if ¬ (env.statOk ∧ env.regular) then
    if ¬ env.statOk then ⟨false, 0, 0, env.fileExists, false, false⟩
    else if env.fileExists then
      ⟨env.plainRemoveOk, 0, 0, !env.plainRemoveOk, false, false⟩
    else ⟨true, 0, 0, false, false, false⟩
  else if ¬ env.sizeOk then
    ⟨env.plainRemoveOk, 0, 0, !env.plainRemoveOk, false, false⟩
  else if env.size = 0 then
    ⟨env.plainRemoveOk, 0, 0, !env.plainRemoveOk, false, false⟩
  else if ¬ env.openOk then
    ⟨env.plainRemoveOk, 0, 0, !env.plainRemoveOk, false, false⟩
  else
    let r := runPassesFrom env 1 passes.toNat
    if ¬ r.allOk then
      ⟨env.plainRemoveOk, r.passes, r.bytes, !env.plainRemoveOk, false, false⟩
    else
      if env.renameOk then
        ⟨env.finalRemoveOk, r.passes, r.bytes, false, !env.finalRemoveOk, true⟩
      else
        ⟨env.finalRemoveOk, r.passes, r.bytes, !env.finalRemoveOk, false, false⟩

/-- Embedding of the BEFORE case of
HistoryCleaner::calculateTimestamps (HistoryCleaner.cpp lines
381-388): the start bound is 0 and the end bound is the epoch of the
given date, lowered by one second only when the precise flag is NOT
set. The argument is the value dateToEpoch returned for the date
string. -/
def calculateTimestampsBefore (td : Int) (precise : Bool) : Int × Int :=
  (0, if precise then td else td - 1)

/-- Window membership (spec section 4.2): start ≤ ts ≤ end. -/
def inWindow (w : Int × Int) (ts : Int) : Bool :=
  decide (w.1 ≤ ts ∧ ts ≤ w.2)

/-- Spec-side content filter (spec section 4.3), written from the
words of the specification for comparison with the code path: true
when both filter lists are empty, otherwise a plain OR of keyword
substring hits and pattern search hits. -/
def matchesSpec (cfg : Config) (cmd : List Char) : Bool :=
  if cfg.keywords.isEmpty && cfg.regexes.isEmpty then true
  else
    cfg.keywords.any (fun k => findSub k cmd) ||
      cfg.regexes.any (fun r => r cmd)

/-! ### Helper lemmas about the pass loop -/

theorem runPassesFrom_fail_lt (env : EraseEnv) :
    ∀ n start, (runPassesFrom env start n).allOk = false →
      (runPassesFrom env start n).passes < n := by
  intro n
  induction n with
  | zero => intro start h; simp [runPassesFrom] at h
  | succ n ih =>
      intro start h
      simp only [runPassesFrom] at h ⊢
      by_cases hs : env.seekOk start = true
      · simp only [hs, not_true, if_false] at h ⊢
        by_cases hw : (writeLoop (env.writeOk start) 0 env.size).1 = true
        · simp only [hw, not_true, if_false] at h ⊢
          exact Nat.succ_lt_succ (ih (start + 1) h)
        · simp only [Bool.not_eq_true] at hw
          simp [hw]
      · simp only [Bool.not_eq_true] at hs
        simp [hs]

theorem writeLoop_allOk (wOk : Nat → Bool) (hw : ∀ c, wOk c = true) :
    ∀ remaining chunk, writeLoop wOk chunk remaining = (true, remaining) := by
  intro remaining
  induction remaining using Nat.strong_induction_on with
  | _ remaining ih =>
      intro chunk
      rw [writeLoop]
      by_cases h0 : remaining = 0
      · simp [h0]
      · have hmin : 0 < min SHRED_BUFFER_SIZE remaining := by
          simp only [SHRED_BUFFER_SIZE]
          omega
        have hle : min SHRED_BUFFER_SIZE remaining ≤ remaining :=
          Nat.min_le_right _ _
        simp only [h0, if_false, hw, if_true]
        rw [ih (remaining - min SHRED_BUFFER_SIZE remaining) (by omega) (chunk + 1)]
        simp only [Prod.mk.injEq, true_and]
        omega

theorem runPassesFrom_allOk (env : EraseEnv)
    (hs : ∀ p, env.seekOk p = true) (hw : ∀ p c, env.writeOk p c = true) :
    ∀ n start, runPassesFrom env start n = ⟨n, n * env.size, true⟩ := by
  intro n
  induction n with
  | zero => intro start; simp [runPassesFrom]
  | succ n ih =>
      intro start
      simp only [runPassesFrom, hs, not_true, if_false,
        writeLoop_allOk (env.writeOk start) (hw start), ih (start + 1)]
      have hb : env.size + n * env.size = (n + 1) * env.size := by ring
      simp [hb]

/-! ### Claim C10 -/

/-- Claim C10: on an existing non-empty regular file, a call with a
non-positive pass count runs zero overwrite passes and writes zero
bytes, yet still renames the file to the randomized sibling name,
removes it, and returns success. -/
theorem c10_nonpositive_passes_removes_without_overwrite
    (env : EraseEnv) (passes : Int)
    (h1 : env.statOk = true) (h2 : env.regular = true)
    (h3 : env.sizeOk = true) (h4 : 0 < env.size) (h5 : env.openOk = true)
    (h6 : env.renameOk = true) (h7 : env.finalRemoveOk = true)
    (hp : passes ≤ 0) :
    secureDelete env passes = ⟨true, 0, 0, false, false, true⟩ := by
  have ht : passes.toNat = 0 := Int.toNat_of_nonpos hp
  have h4' : ¬ env.size = 0 := by omega
  unfold secureDelete
  simp [h1, h2, h3, h4', h5, h6, h7, ht, runPassesFrom]

/-- Witness for C10 at a concrete environment and pass count. -/
theorem c10_witness :
    ((-3 : Int) ≤ 0 ∧ 0 < (7 : Nat)) ∧
    secureDelete
      { statOk := true, regular := true, fileExists := true, sizeOk := true,
        size := 7, openOk := true, seekOk := fun _ => true,
        writeOk := fun _ _ => true, plainRemoveOk := true,
        renameOk := true, finalRemoveOk := true } (-3) =
      ⟨true, 0, 0, false, false, true⟩ :=
  ⟨⟨by decide, by decide⟩,
    c10_nonpositive_passes_removes_without_overwrite _ _ rfl rfl rfl
      (by decide) rfl rfl rfl (by decide)⟩

/-! ### Claim C4 -/

/-- Claim C4: on a fresh regular file of positive size with every
seek and write succeeding, the erase runs exactly passCount passes,
writing passCount times the file size bytes in total, returns
success, and afterwards neither the original path nor the
randomized-name path exists. -/
theorem c4_erase_writes_passes_times_size (env : EraseEnv) (passes : Int)
    (h1 : env.statOk = true) (h2 : env.regular = true)
    (h3 : env.sizeOk = true) (h4 : 0 < env.size) (h5 : env.openOk = true)
    (hs : ∀ p, env.seekOk p = true) (hw : ∀ p c, env.writeOk p c = true)
    (hf : env.finalRemoveOk = true) (hp : 1 ≤ passes) :
    secureDelete env passes =
      ⟨true, passes.toNat, passes.toNat * env.size, false, false, env.renameOk⟩ ∧
    (passes.toNat : Int) = passes := by
  have h4' : ¬ env.size = 0 := by omega
  constructor
  · unfold secureDelete
    rw [runPassesFrom_allOk env hs hw passes.toNat 1]
    by_cases hr : env.renameOk = true
    · simp [h1, h2, h3, h4', h5, hf, hr]
    · simp only [Bool.not_eq_true] at hr
      simp [h1, h2, h3, h4', h5, hf, hr]
  · exact Int.toNat_of_nonneg (by omega)

/-- Witness for C4: two passes over a five-byte file write ten
bytes. -/
theorem c4_witness :
    ((1 : Int) ≤ 2 ∧ 0 < (5 : Nat)) ∧
    secureDelete
      { statOk := true, regular := true, fileExists := true, sizeOk := true,
        size := 5, openOk := true, seekOk := fun _ => true,
        writeOk := fun _ _ => true, plainRemoveOk := true,
        renameOk := true, finalRemoveOk := true } 2 =
      ⟨true, 2, 10, false, false, true⟩ :=
  ⟨⟨by decide, by decide⟩,
    ((c4_erase_writes_passes_times_size _ 2 rfl rfl rfl (by decide) rfl
      (fun _ => rfl) (fun _ _ => rfl) rfl (by decide)).1)⟩

/-! ### Claim C2 -/

/-- Counterexample to claim C2 as stated: with a write error on the
very first chunk of the first pass and a best-effort plain removal
that succeeds, secureDelete returns true (success), not the claimed
unconditional failure, even though zero passes completed. -/
theorem c2_counterexample :
    (secureDelete
      { statOk := true, regular := true, fileExists := true, sizeOk := true,
        size := 5, openOk := true, seekOk := fun _ => true,
        writeOk := fun _ _ => false, plainRemoveOk := true,
        renameOk := true, finalRemoveOk := true } 2).ok = true ∧
    (secureDelete
      { statOk := true, regular := true, fileExists := true, sizeOk := true,
        size := 5, openOk := true, seekOk := fun _ => true,
        writeOk := fun _ _ => false, plainRemoveOk := true,
        renameOk := true, finalRemoveOk := true } 2).passesCompleted = 0 := by
  constructor <;>
    simp [secureDelete, runPassesFrom, writeLoop, SHRED_BUFFER_SIZE]

/-- Claim C2 amended: an I/O error during the overwrite passes
abandons the remaining passes and triggers a best-effort plain
removal; the call then returns the result of that plain removal
(success exactly when the removal succeeded), and the original path
survives exactly when the removal failed. -/
theorem c2_error_aborts_and_returns_remove_result
    (env : EraseEnv) (passes : Int)
    (h1 : env.statOk = true) (h2 : env.regular = true)
    (h3 : env.sizeOk = true) (h4 : 0 < env.size) (h5 : env.openOk = true)
    (hfail : (runPassesFrom env 1 passes.toNat).allOk = false) :
    secureDelete env passes =
      ⟨env.plainRemoveOk, (runPassesFrom env 1 passes.toNat).passes,
        (runPassesFrom env 1 passes.toNat).bytes,
        !env.plainRemoveOk, false, false⟩ ∧
    (runPassesFrom env 1 passes.toNat).passes < passes.toNat := by
  have h4' : ¬ env.size = 0 := by omega
  constructor
  · unfold secureDelete
    simp [h1, h2, h3, h4', h5, hfail]
  · exact runPassesFrom_fail_lt env passes.toNat 1 hfail

/-- Witness for the amended C2: a failing write with a failing plain
removal yields overall failure with the original still present. -/
theorem c2_witness :
    ((runPassesFrom
      { statOk := true, regular := true, fileExists := true, sizeOk := true,
        size := 5, openOk := true, seekOk := fun _ => true,
        writeOk := fun _ _ => false, plainRemoveOk := false,
        renameOk := true, finalRemoveOk := true } 1 (Int.toNat 2)).allOk
        = false) ∧
    secureDelete
      { statOk := true, regular := true, fileExists := true, sizeOk := true,
        size := 5, openOk := true, seekOk := fun _ => true,
        writeOk := fun _ _ => false, plainRemoveOk := false,
        renameOk := true, finalRemoveOk := true } 2 =
      ⟨false, 0, 0, true, false, false⟩ := by
  have hfail : (runPassesFrom
      { statOk := true, regular := true, fileExists := true, sizeOk := true,
        size := 5, openOk := true, seekOk := fun _ => true,
        writeOk := fun _ _ => false, plainRemoveOk := false,
        renameOk := true, finalRemoveOk := true } 1 (Int.toNat 2)).allOk
        = false := by
    simp [runPassesFrom, writeLoop, SHRED_BUFFER_SIZE]
  have hpass : (runPassesFrom
      { statOk := true, regular := true, fileExists := true, sizeOk := true,
        size := 5, openOk := true, seekOk := fun _ => true,
        writeOk := fun _ _ => false, plainRemoveOk := false,
        renameOk := true, finalRemoveOk := true } 1 (Int.toNat 2)) =
      ⟨0, 0, false⟩ := by
    simp [runPassesFrom, writeLoop, SHRED_BUFFER_SIZE]
  refine ⟨hfail, ?_⟩
  have h := (c2_error_aborts_and_returns_remove_result _ 2 rfl rfl rfl
    (by decide) rfl hfail).1
  rw [h, hpass]
  rfl

/-! ### Claim C3 -/

/-- Claim C3 fails on the code: in Before mode with the precise flag
set, calculateTimestamps does NOT subtract the one second, so the
window is [0, t(d)] and a record timestamped exactly t(d) lies inside
the window and is deleted by the time-only filter. Evaluated here at
t(d) = 100 with a record at timestamp 100. -/
theorem c3_precise_before_deletes_boundary :
    calculateTimestampsBefore 100 true = (0, 100) ∧
    inWindow (calculateTimestampsBefore 100 true) 100 = true ∧
    (processCommandBlock
      { startT := (calculateTimestampsBefore 100 true).1,
        endT := (calculateTimestampsBefore 100 true).2,
        keywords := [], regexes := [], dryRun := false, doBackup := false }
      [':', ' ', '1', '0', '0', ':', '0', ';', 'l', 's', '\n']).shouldDelete
      = true := by
  refine ⟨rfl, by decide, by decide⟩

/-- For contrast, the non-precise branch does subtract one second, so
a record at exactly t(d) is outside the window there. -/
theorem c3_nonprecise_before_keeps_boundary :
    calculateTimestampsBefore 100 false = (0, 99) ∧
    inWindow (calculateTimestampsBefore 100 false) 100 = false := by
  refine ⟨rfl, by decide⟩

/-! ### Claim C7 -/

/-- Claim C7: with the dry-run flag set, processHistory returns true
right after the counting pass and the file system is untouched for
every window, filter set, environment and initial state: no
temporary or replacement file is created and the original is
byte-identical. -/
theorem c7_dry_run_never_mutates (cfg : Config) (env : IOEnv)
    (input : List Char) (fs : FS) (h : cfg.dryRun = true) :
    processHistory cfg env input fs = ⟨true, fs, parseInput cfg input⟩ := by
  simp [processHistory, h]

/-- Witness for C7 at a concrete dry-run configuration. -/
theorem c7_witness :
    (Config.dryRun ⟨0, 1000, [], [], true, false⟩ = true) ∧
    processHistory ⟨0, 1000, [], [], true, false⟩ ⟨true, true, true, true, true⟩
      [':', ' ', '5', ':', '0', ';', 'x', '\n']
      ⟨some [':', ' ', '5', ':', '0', ';', 'x', '\n'], none, none⟩ =
      ⟨true, ⟨some [':', ' ', '5', ':', '0', ';', 'x', '\n'], none, none⟩,
        parseInput ⟨0, 1000, [], [], true, false⟩
          [':', ' ', '5', ':', '0', ';', 'x', '\n']⟩ :=
  ⟨rfl, c7_dry_run_never_mutates _ _ _ _ rfl⟩

/-! ### Claim C8 -/

/-- Claim C8: a block whose header line does not parse (regex
mismatch) or whose timestamp digits overflow the 64-bit range is
always kept with a warning — one kept-count increment, no deletion —
whatever the window and content filters are. -/
theorem c8_malformed_or_overflowing_header_kept
    (cfg : Config) (block : List Char)
    (h : parseHeader (firstLineOf block) = none ∨
      ∃ ds, parseHeader (firstLineOf block) = some ds ∧
        stollDigits ds = none) :
    processCommandBlock cfg block = ⟨false, 1, 0, true⟩ := by
  unfold processCommandBlock
  by_cases hnl : block.contains '\n' = true
  · rw [if_neg (not_not_intro hnl)]
    dsimp only
    rcases h with h | ⟨ds, h1, h2⟩
    · rw [h]
    · rw [h1]
      dsimp only
      rw [h2]
  · rw [if_pos hnl]

/-- Witness for C8: a twenty-digit timestamp overflows the 64-bit
signed range, and the block is kept with a warning even under an
all-time window with no filters. -/
theorem c8_witness :
    (stollDigits ['9', '9', '9', '9', '9', '9', '9', '9', '9', '9',
      '9', '9', '9', '9', '9', '9', '9', '9', '9', '9'] = none) ∧
    processCommandBlock ⟨0, (2 : Int) ^ 63 - 1, [], [], false, false⟩
      ([':', ' '] ++ ['9', '9', '9', '9', '9', '9', '9', '9', '9', '9',
        '9', '9', '9', '9', '9', '9', '9', '9', '9', '9'] ++
        [':', '0', ';', 'x', '\n']) = ⟨false, 1, 0, true⟩ :=
  ⟨by decide,
    c8_malformed_or_overflowing_header_kept
      ⟨0, (2 : Int) ^ 63 - 1, [], [], false, false⟩
      ([':', ' '] ++ ['9', '9', '9', '9', '9', '9', '9', '9', '9', '9',
        '9', '9', '9', '9', '9', '9', '9', '9', '9', '9'] ++
        [':', '0', ';', 'x', '\n'])
      (Or.inr ⟨['9', '9', '9', '9', '9', '9', '9', '9', '9', '9',
        '9', '9', '9', '9', '9', '9', '9', '9', '9', '9'],
        by decide, by decide⟩)⟩

/-! ### Claim C5 -/

/-- Claim C5: on a well-formed record (header parses, timestamp in
range, command text extracted), the deletion verdict of
processCommandBlock equals window membership AND the spec-side
content filter, where the filter is true on empty filter lists and
otherwise an OR of keyword substring hits and pattern hits; the
keyword-first short-circuit in the code does not change the OR. -/
theorem c5_decide_is_window_and_filters (cfg : Config)
    (block ds cmd : List Char) (ts : Int)
    (hnl : block.contains '\n' = true)
    (hh : parseHeader (firstLineOf block) = some ds)
    (hts : stollDigits ds = some ts)
    (hcmd : extractCommand (firstLineOf block) = some cmd) :
    (processCommandBlock cfg block).shouldDelete =
      (inWindow (cfg.startT, cfg.endT) ts && matchesSpec cfg cmd) := by
  unfold processCommandBlock
  rw [if_neg (not_not_intro hnl)]
  dsimp only
  rw [hh]
  dsimp only
  rw [hts]
  dsimp only
  by_cases hwnd : cfg.startT ≤ ts ∧ ts ≤ cfg.endT
  · rw [if_pos hwnd]
    have hw : inWindow (cfg.startT, cfg.endT) ts = true := decide_eq_true hwnd
    rw [hw, Bool.true_and]
    rw [hcmd]
    unfold matchesSpec
    cases he : (cfg.keywords.isEmpty && cfg.regexes.isEmpty) <;>
      cases hkw : cfg.keywords.any (fun k => findSub k cmd) <;>
        cases hre : cfg.regexes.any (fun r => r cmd) <;>
          simp [he, hkw, hre]
  · rw [if_neg hwnd]
    have hw : inWindow (cfg.startT, cfg.endT) ts = false := decide_eq_false hwnd
    rw [hw, Bool.false_and]

/-- Witness for C5 at a concrete record and a keyword filter. -/
theorem c5_witness :
    ([':', ' ', '1', '0', '0', ':', '0', ';', 'l', 's', '\n'].contains '\n'
      = true) ∧
    (parseHeader (firstLineOf [':', ' ', '1', '0', '0', ':', '0', ';', 'l', 's', '\n'])
      = some ['1', '0', '0']) ∧
    (stollDigits ['1', '0', '0'] = some 100) ∧
    (extractCommand (firstLineOf [':', ' ', '1', '0', '0', ':', '0', ';', 'l', 's', '\n'])
      = some ['l', 's']) ∧
    (processCommandBlock ⟨0, 1000, [['l']], [], false, false⟩
        [':', ' ', '1', '0', '0', ':', '0', ';', 'l', 's', '\n']).shouldDelete =
      (inWindow (0, 1000) 100 &&
        matchesSpec ⟨0, 1000, [['l']], [], false, false⟩ ['l', 's']) :=
  ⟨by decide, by decide, by decide, by decide,
    c5_decide_is_window_and_filters ⟨0, 1000, [['l']], [], false, false⟩
      [':', ' ', '1', '0', '0', ':', '0', ';', 'l', 's', '\n']
      ['1', '0', '0'] ['l', 's'] 100
      (by decide) (by decide) (by decide) (by decide)⟩

/-! ### Claim C1 -/

/-- Claim C1 fails on the code: when the secure delete of the
original succeeds and the final rename of the temporary artifact onto
the original path fails, processHistory calls cleanup, which REMOVES
the temporary file holding the only surviving copy, and returns the
same generic false as any other failure. Evaluated on a run where one
record survives: afterwards neither the original nor the temporary
file exists. -/
theorem c1_rename_failure_removes_survivors :
    (processHistory ⟨10, 20, [], [], false, false⟩
      ⟨true, true, true, true, false⟩
      [':', ' ', '5', ':', '0', ';', 'k', '\n',
       ':', ' ', '1', '5', ':', '0', ';', 'd', '\n']
      ⟨some [':', ' ', '5', ':', '0', ';', 'k', '\n',
        ':', ' ', '1', '5', ':', '0', ';', 'd', '\n'], none, none⟩).ok
      = false ∧
    (processHistory ⟨10, 20, [], [], false, false⟩
      ⟨true, true, true, true, false⟩
      [':', ' ', '5', ':', '0', ';', 'k', '\n',
       ':', ' ', '1', '5', ':', '0', ';', 'd', '\n']
      ⟨some [':', ' ', '5', ':', '0', ';', 'k', '\n',
        ':', ' ', '1', '5', ':', '0', ';', 'd', '\n'], none, none⟩).st.keptEntries
      = [[':', ' ', '5', ':', '0', ';', 'k', '\n']] ∧
    (processHistory ⟨10, 20, [], [], false, false⟩
      ⟨true, true, true, true, false⟩
      [':', ' ', '5', ':', '0', ';', 'k', '\n',
       ':', ' ', '1', '5', ':', '0', ';', 'd', '\n']
      ⟨some [':', ' ', '5', ':', '0', ';', 'k', '\n',
        ':', ' ', '1', '5', ':', '0', ';', 'd', '\n'], none, none⟩).fs =
      ⟨none, none, none⟩ := by
  refine ⟨by decide, by decide, by decide⟩

/-! ### Parse losslessness: helper lemmas -/

theorem getLines_ne_nil (s : List Char) (h : s ≠ []) : getLines s ≠ [] := by
  cases s with
  | nil => exact absurd rfl h
  | cons c rest =>
      simp only [getLines]
      split
      · simp
      · split <;> simp

theorem getLines_chars (s : List Char) :
    ∀ l ∈ getLines s, ∀ c ∈ l, c ∈ s := by
  induction s with
  | nil => simp [getLines]
  | cons a rest ih =>
      intro l hl c hc
      by_cases ha : a = '\n'
      · rw [getLines, if_pos ha] at hl
        rcases List.mem_cons.mp hl with h1 | h1
        · subst h1; cases hc
        · exact List.mem_cons_of_mem a (ih l h1 c hc)
      · rw [getLines, if_neg ha] at hl
        cases hgl : getLines rest with
        | nil =>
            rw [hgl] at hl
            rcases List.mem_cons.mp hl with h1 | h1
            · subst h1
              rcases List.mem_cons.mp hc with h2 | h2
              · rw [h2]; exact List.mem_cons_self a rest
              · cases h2
            · cases h1
        | cons l0 ls =>
            rw [hgl] at hl
            rcases List.mem_cons.mp hl with h1 | h1
            · subst h1
              rcases List.mem_cons.mp hc with h2 | h2
              · rw [h2]; exact List.mem_cons_self a rest
              · have hm := ih l0 (by rw [hgl]; exact List.mem_cons_self l0 ls) c h2
                exact List.mem_cons_of_mem a hm
            · have hm := ih l (by rw [hgl]; exact List.mem_cons_of_mem l0 h1) c hc
              exact List.mem_cons_of_mem a hm

theorem stripCR_eq_self (l : List Char) (h : ∀ c ∈ l, c ≠ '\r') :
    stripCR l = l := by
  unfold stripCR
  split
  · next hlast =>
      obtain ⟨hne, heq⟩ := List.mem_getLast?_eq_getLast hlast
      exact absurd (heq ▸ List.getLast_mem hne) (by
        intro hmem
        exact h _ hmem rfl)
  · rfl

/-- On a newline-terminated carriage-return-free stream, re-emitting
every getline line with a newline reproduces the stream
byte-for-byte. -/
theorem rebuild_clean (s : List Char)
    (h1 : s = [] ∨ s.getLast? = some '\n') (h2 : ∀ c ∈ s, c ≠ '\r') :
    ((getLines s).map (fun l => stripCR l ++ ['\n'])).flatten = s := by
  induction s with
  | nil => simp [getLines]
  | cons a rest ih =>
      rcases h1 with h1 | h1
      · cases h1
      by_cases ha : a = '\n'
      · subst ha
        rw [getLines, if_pos rfl]
        simp only [List.map_cons, List.flatten_cons]
        have hs0 : stripCR ([] : List Char) = [] := by decide
        rw [hs0]
        cases rest with
        | nil => simp [getLines]
        | cons b t =>
            have hrest : (b :: t).getLast? = some '\n' := by
              rw [List.getLast?_cons_cons] at h1
              exact h1
            have h2r : ∀ c ∈ b :: t, c ≠ '\r' := fun c hcm =>
              h2 c (List.mem_cons_of_mem _ hcm)
            rw [ih (Or.inr hrest) h2r]
            rfl
      · have hrest_ne : rest ≠ [] := by
          intro hr
          subst hr
          simp only [List.getLast?_singleton, Option.some.injEq] at h1
          exact ha h1
        obtain ⟨l0, ls, hgl⟩ :
            ∃ l0 ls, getLines rest = l0 :: ls := by
          cases hgl : getLines rest with
          | nil => exact absurd hgl (getLines_ne_nil rest hrest_ne)
          | cons l0 ls => exact ⟨l0, ls, rfl⟩
        rw [getLines, if_neg ha, hgl]
        simp only [List.map_cons, List.flatten_cons]
        have hrest : rest.getLast? = some '\n' := by
          cases rest with
          | nil => exact absurd rfl hrest_ne
          | cons b t =>
              rw [List.getLast?_cons_cons] at h1
              exact h1
        have h2r : ∀ c ∈ rest, c ≠ '\r' := fun c hcm =>
          h2 c (List.mem_cons_of_mem _ hcm)
        have hihr := ih (Or.inr hrest) h2r
        rw [hgl] at hihr
        simp only [List.map_cons, List.flatten_cons] at hihr
        have hl0 : ∀ c ∈ l0, c ≠ '\r' := fun c hcm =>
          h2r c (getLines_chars rest l0 (hgl ▸ List.mem_cons_self l0 ls) c hcm)
        have hal0 : ∀ c ∈ a :: l0, c ≠ '\r' := by
          intro c hcm
          rcases List.mem_cons.mp hcm with h3 | h3
          · rw [h3]; exact h2 a (List.mem_cons_self a rest)
          · exact hl0 c h3
        rw [stripCR_eq_self l0 hl0] at hihr
        rw [stripCR_eq_self (a :: l0) hal0]
        rw [List.cons_append, List.cons_append, hihr]

/-! ### Loop invariants of the read loop -/

theorem procLine_recs_flatten (cfg : Config) (st : ProcState)
    (line : List Char) :
    (procLine cfg st line).recs.flatten ++ (procLine cfg st line).current =
      st.recs.flatten ++ st.current ++ (line ++ ['\n']) := by
  unfold procLine flushBlock
  by_cases hh : isHeaderLine line = true
  · rw [if_pos hh]
    by_cases hc : st.current = []
    · rw [if_neg (by simpa using hc)]
      simp [hc]
    · rw [if_pos (by simpa using hc)]
      simp [List.append_assoc]
  · rw [if_neg (by simp [hh])]
    by_cases hc : st.current = []
    · rw [if_neg (by simpa using hc)]
      simp [hc]
    · rw [if_pos (by simpa using hc)]
      simp [List.append_assoc]

theorem foldl_recs_flatten (cfg : Config) :
    ∀ (lines : List (List Char)) (st : ProcState),
      (lines.foldl (procLine cfg) st).recs.flatten ++
          (lines.foldl (procLine cfg) st).current =
        st.recs.flatten ++ st.current ++
          (lines.map (fun l => l ++ ['\n'])).flatten := by
  intro lines
  induction lines with
  | nil => intro st; simp
  | cons l rest ih =>
      intro st
      simp only [List.foldl_cons, List.map_cons, List.flatten_cons]
      rw [ih (procLine cfg st l), procLine_recs_flatten]
      simp [List.append_assoc]

/-- The flushed records of a full run concatenate to exactly the
newline-joined list of input lines. -/
theorem procLines_recs_flatten (cfg : Config) (lines : List (List Char)) :
    (procLines cfg lines).recs.flatten =
      (lines.map (fun l => l ++ ['\n'])).flatten := by
  have h := foldl_recs_flatten cfg lines initState
  have h1 : initState.recs = [] := rfl
  have h2 : initState.current = [] := rfl
  rw [h1, h2] at h
  simp only [List.flatten_nil, List.nil_append, List.append_nil] at h
  unfold procLines
  by_cases hc : (lines.foldl (procLine cfg) initState).current = []
  · rw [if_neg (by simpa using hc)]
    rw [hc, List.append_nil] at h
    exact h
  · rw [if_pos (by simpa using hc)]
    unfold flushBlock
    simp only
    rw [List.flatten_append, List.flatten_cons, List.flatten_nil,
      List.append_nil]
    exact h

theorem parseInput_recs_flatten (cfg : Config) (input : List Char) :
    (parseInput cfg input).recs.flatten =
      (((getLines input).map stripCR).map (fun l => l ++ ['\n'])).flatten := by
  unfold parseInput
  exact procLines_recs_flatten cfg ((getLines input).map stripCR)

/-! ### Surviving entries equal records when nothing was deleted -/

/-- processCommandBlock always returns one of three literal results:
keep with warning, delete, or keep silently. -/
theorem processCommandBlock_cases (cfg : Config) (blk : List Char) :
    processCommandBlock cfg blk = ⟨false, 1, 0, true⟩ ∨
    processCommandBlock cfg blk = ⟨true, 0, 1, false⟩ ∨
    processCommandBlock cfg blk = ⟨false, 1, 0, false⟩ := by
  unfold processCommandBlock
  repeat'
    first
      | exact Or.inl rfl
      | exact Or.inr (Or.inl rfl)
      | exact Or.inr (Or.inr rfl)
      | dsimp only
      | split

theorem shouldDelete_true_deletedInc (cfg : Config) (blk : List Char)
    (h : (processCommandBlock cfg blk).shouldDelete = true) :
    (processCommandBlock cfg blk).deletedInc = 1 := by
  rcases processCommandBlock_cases cfg blk with h1 | h1 | h1 <;>
    rw [h1] at h ⊢ <;> cases h

theorem procLine_deleted_le (cfg : Config) (st : ProcState)
    (line : List Char) :
    st.deletedCount ≤ (procLine cfg st line).deletedCount := by
  unfold procLine flushBlock
  by_cases hh : isHeaderLine line = true
  · rw [if_pos hh]
    by_cases hc : st.current = []
    · rw [if_neg (by simpa using hc)]
    · rw [if_pos (by simpa using hc)]
      simp
  · rw [if_neg (by simp [hh])]
    by_cases hc : st.current = []
    · rw [if_neg (by simpa using hc)]
    · rw [if_pos (by simpa using hc)]

theorem foldl_deleted_le (cfg : Config) :
    ∀ (lines : List (List Char)) (st : ProcState),
      st.deletedCount ≤ (lines.foldl (procLine cfg) st).deletedCount := by
  intro lines
  induction lines with
  | nil => intro st; exact Nat.le_refl _
  | cons l rest ih =>
      intro st
      exact Nat.le_trans (procLine_deleted_le cfg st l) (ih (procLine cfg st l))

theorem procLine_kept_eq_recs (cfg : Config) (st : ProcState)
    (line : List Char) (hdry : cfg.dryRun = false)
    (hke : st.keptEntries = st.recs)
    (hdel : (procLine cfg st line).deletedCount = 0) :
    (procLine cfg st line).keptEntries = (procLine cfg st line).recs := by
  unfold procLine flushBlock at hdel ⊢
  by_cases hh : isHeaderLine line = true
  · rw [if_pos hh] at hdel ⊢
    by_cases hc : st.current = []
    · rw [if_neg (by simpa using hc)] at hdel ⊢
      simpa using hke
    · rw [if_pos (by simpa using hc)] at hdel ⊢
      simp only at hdel ⊢
      by_cases hsd : (processCommandBlock cfg st.current).shouldDelete = true
      · exfalso
        rw [shouldDelete_true_deletedInc cfg st.current hsd] at hdel
        omega
      · rw [Bool.not_eq_true] at hsd
        simp [hsd, hdry, hke]
  · rw [if_neg (by simp [hh])] at hdel ⊢
    by_cases hc : st.current = []
    · rw [if_neg (by simpa using hc)] at hdel ⊢
      simp [hdry, hke]
    · rw [if_pos (by simpa using hc)] at hdel ⊢
      simpa using hke

theorem foldl_kept_eq_recs (cfg : Config) (hdry : cfg.dryRun = false) :
    ∀ (lines : List (List Char)) (st : ProcState),
      st.keptEntries = st.recs →
      (lines.foldl (procLine cfg) st).deletedCount = 0 →
      (lines.foldl (procLine cfg) st).keptEntries =
        (lines.foldl (procLine cfg) st).recs := by
  intro lines
  induction lines with
  | nil => intro st hke _; exact hke
  | cons l rest ih =>
      intro st hke hdel
      simp only [List.foldl_cons] at hdel ⊢
      have hstep : (procLine cfg st l).deletedCount = 0 :=
        Nat.le_antisymm (hdel ▸ foldl_deleted_le cfg rest (procLine cfg st l))
          (Nat.zero_le _)
      exact ih (procLine cfg st l)
        (procLine_kept_eq_recs cfg st l hdry hke hstep) hdel

/-- When a run deletes nothing, the surviving entries are exactly the
flushed records, in order. -/
theorem procLines_kept_eq_recs (cfg : Config) (lines : List (List Char))
    (hdry : cfg.dryRun = false)
    (hdel : (procLines cfg lines).deletedCount = 0) :
    (procLines cfg lines).keptEntries = (procLines cfg lines).recs := by
  unfold procLines at hdel ⊢
  by_cases hc : (lines.foldl (procLine cfg) initState).current = []
  · rw [if_neg (by simpa using hc)] at hdel ⊢
    exact foldl_kept_eq_recs cfg hdry lines initState rfl hdel
  · rw [if_pos (by simpa using hc)] at hdel ⊢
    unfold flushBlock at hdel ⊢
    simp only at hdel ⊢
    have hdel0 : (lines.foldl (procLine cfg) initState).deletedCount = 0 := by
      omega
    have hke := foldl_kept_eq_recs cfg hdry lines initState rfl hdel0
    by_cases hsd :
        (processCommandBlock cfg
          (lines.foldl (procLine cfg) initState).current).shouldDelete = true
    · exfalso
      rw [shouldDelete_true_deletedInc cfg _ hsd] at hdel
      omega
    · rw [Bool.not_eq_true] at hsd
      simp [hsd, hdry, hke]

/-! ### Claim C6 -/

/-- Counterexample to claim C6 as stated: on the input consisting of
the single byte x — no carriage return anywhere, so the tolerated
normalization is the identity — the concatenation of the parsed
records is x followed by a newline, which is not byte-identical to
the input. The read loop appends a newline to a final line that had
none. -/
theorem c6_counterexample :
    (∀ c ∈ (['x'] : List Char), c ≠ '\r') ∧
    (parseInput ⟨0, 1000, [], [], false, false⟩ ['x']).recs.flatten =
      ['x', '\n'] ∧
    (parseInput ⟨0, 1000, [], [], false, false⟩ ['x']).recs.flatten ≠
      ['x'] := by
  refine ⟨by decide, by decide, by decide⟩

/-- Claim C6 amended: for a newline-terminated input without
carriage returns, concatenating the parsed records reproduces the
input byte-for-byte (in general the loop strips one trailing
carriage return per line and newline-terminates the final line); and
when a mutating run with no failing operation deletes no record, the
post-run content of the original path is byte-identical to the
input. -/
theorem c6_lossless_parse_and_identity_rewrite
    (cfg : Config) (env : IOEnv) (input : List Char) (fs : FS)
    (hterm : input = [] ∨ input.getLast? = some '\n')
    (hcr : ∀ c ∈ input, c ≠ '\r')
    (hdry : cfg.dryRun = false)
    (hdel : (parseInput cfg input).deletedCount = 0)
    (henv : env.tempCreateOk = true ∧ env.writeOk = true ∧
      env.backupOk = true ∧ env.eraseOk = true ∧ env.renameOk = true) :
    (parseInput cfg input).recs.flatten = input ∧
    (processHistory cfg env input fs).ok = true ∧
    (processHistory cfg env input fs).fs.original = some input := by
  obtain ⟨he1, he2, he3, he4, he5⟩ := henv
  have hrecs : (parseInput cfg input).recs.flatten = input := by
    rw [parseInput_recs_flatten, List.map_map]
    exact rebuild_clean input hterm hcr
  have hdel2 : (procLines cfg ((getLines input).map stripCR)).deletedCount
      = 0 := by
    unfold parseInput at hdel
    exact hdel
  have hkept : (parseInput cfg input).keptEntries.flatten = input := by
    have h := procLines_kept_eq_recs cfg ((getLines input).map stripCR)
      hdry hdel2
    calc (parseInput cfg input).keptEntries.flatten
        = (parseInput cfg input).recs.flatten := by
          unfold parseInput
          rw [h]
      _ = input := hrecs
  have hrun : (processHistory cfg env input fs).ok = true ∧
      (processHistory cfg env input fs).fs.original =
        some (parseInput cfg input).keptEntries.flatten := by
    unfold processHistory performCleanup
    rw [hdry]
    by_cases hb : cfg.doBackup = true <;>
      simp [he1, he2, he3, he4, he5, hb]
  obtain ⟨hr1, hr2⟩ := hrun
  rw [hkept] at hr2
  exact ⟨hrecs, hr1, hr2⟩

/-- Witness for the amended C6: a two-record input under an empty
window (nothing deleted) is rewritten to identical content. -/
theorem c6_witness :
    (([':', ' ', '5', ':', '0', ';', 'k', '\n'] : List Char) = [] ∨
      ([':', ' ', '5', ':', '0', ';', 'k', '\n'] : List Char).getLast? =
        some '\n') ∧
    (parseInput ⟨3, 2, [], [], false, false⟩
      [':', ' ', '5', ':', '0', ';', 'k', '\n']).deletedCount = 0 ∧
    (parseInput ⟨3, 2, [], [], false, false⟩
      [':', ' ', '5', ':', '0', ';', 'k', '\n']).recs.flatten =
      [':', ' ', '5', ':', '0', ';', 'k', '\n'] ∧
    (processHistory ⟨3, 2, [], [], false, false⟩ ⟨true, true, true, true, true⟩
      [':', ' ', '5', ':', '0', ';', 'k', '\n'] ⟨none, none, none⟩).fs.original =
      some [':', ' ', '5', ':', '0', ';', 'k', '\n'] := by
  have h := c6_lossless_parse_and_identity_rewrite
    ⟨3, 2, [], [], false, false⟩ ⟨true, true, true, true, true⟩
    [':', ' ', '5', ':', '0', ';', 'k', '\n'] ⟨none, none, none⟩
    (Or.inr (by decide)) (by decide) rfl (by decide)
    ⟨rfl, rfl, rfl, rfl, rfl⟩
  exact ⟨Or.inr (by decide), by decide, h.1, h.2.2⟩

/-! ### Claim C9 -/

/-- Counterexample to claim C9 as stated: on an input whose first two
lines precede the first valid header, the loop keeps each of the two
lines as its own record with its own warning — the kept count rises
by two, not by the claimed one, and three records are flushed in
total (the third being the lone header block, which the all-time
window deletes). -/
theorem c9_counterexample :
    (parseInput ⟨0, (2 : Int) ^ 63 - 1, [], [], false, false⟩
      ['a', '\n', 'b', '\n', ':', ' ', '1', '0', '0', ':', '0', ';', 'c', '\n']).keptCount
      = 2 ∧
    (parseInput ⟨0, (2 : Int) ^ 63 - 1, [], [], false, false⟩
      ['a', '\n', 'b', '\n', ':', ' ', '1', '0', '0', ':', '0', ';', 'c', '\n']).deletedCount
      = 1 ∧
    (parseInput ⟨0, (2 : Int) ^ 63 - 1, [], [], false, false⟩
      ['a', '\n', 'b', '\n', ':', ' ', '1', '0', '0', ':', '0', ';', 'c', '\n']).warnings
      = 2 ∧
    (parseInput ⟨0, (2 : Int) ^ 63 - 1, [], [], false, false⟩
      ['a', '\n', 'b', '\n', ':', ' ', '1', '0', '0', ':', '0', ';', 'c', '\n']).recs
      = [['a', '\n'], ['b', '\n'],
         [':', ' ', '1', '0', '0', ':', '0', ';', 'c', '\n']] := by
  refine ⟨by decide, by decide, by decide, by decide⟩

theorem foldl_preamble (cfg : Config) (hdry : cfg.dryRun = false) :
    ∀ (pre : List (List Char)) (st : ProcState), st.current = [] →
      (∀ l ∈ pre, isHeaderLine l = false) →
      pre.foldl (procLine cfg) st =
        { st with
          keptEntries := st.keptEntries ++ pre.map (fun l => l ++ ['\n']),
          recs := st.recs ++ pre.map (fun l => l ++ ['\n']),
          keptCount := st.keptCount + pre.length,
          warnings := st.warnings + pre.length } := by
  intro pre
  induction pre with
  | nil =>
      intro st hcur hnh
      cases st
      simp
  | cons l pre ih =>
      intro st hcur hnh
      obtain ⟨ke, rc, kc, dc, cur, wa⟩ := st
      simp only at hcur
      subst hcur
      have hl : isHeaderLine l = false := hnh l (List.mem_cons_self l pre)
      have hrest : ∀ x ∈ pre, isHeaderLine x = false := fun x hx =>
        hnh x (List.mem_cons_of_mem l hx)
      have hstep : procLine cfg ⟨ke, rc, kc, dc, [], wa⟩ l =
          ⟨ke ++ [l ++ ['\n']], rc ++ [l ++ ['\n']], kc + 1, dc, [], wa + 1⟩ := by
        unfold procLine
        rw [if_neg (by simp [hl])]
        rw [if_neg (by simp)]
        simp [hdry]
      rw [List.foldl_cons, hstep,
        ih ⟨ke ++ [l ++ ['\n']], rc ++ [l ++ ['\n']], kc + 1, dc, [], wa + 1⟩
          rfl hrest]
      simp [List.append_assoc]
      omega

/-- Claim C9 amended: every line before the first valid header is
flushed as its own always-kept preamble record; k such lines
contribute exactly k to the kept count and k warnings, and appear
individually, newline-terminated, at the front of the surviving
entries and of the record list. -/
theorem c9_each_preamble_line_kept_individually
    (cfg : Config) (pre rest : List (List Char))
    (hdry : cfg.dryRun = false) (_hpre : pre ≠ [])
    (hnh : ∀ l ∈ pre, isHeaderLine l = false) :
    (pre ++ rest).foldl (procLine cfg) initState =
      rest.foldl (procLine cfg)
        ⟨pre.map (fun l => l ++ ['\n']), pre.map (fun l => l ++ ['\n']),
          pre.length, 0, [], pre.length⟩ := by
  rw [List.foldl_append]
  rw [foldl_preamble cfg hdry pre initState rfl hnh]
  congr 1
  simp [initState]

/-- Witness for the amended C9 at two preamble lines and one header
line. -/
theorem c9_witness :
    ((([['a'], ['b']] : List (List Char)) ≠ []) ∧
      (∀ l ∈ ([['a'], ['b']] : List (List Char)), isHeaderLine l = false)) ∧
    ([['a'], ['b']] ++ [[':', ' ', '1', '0', '0', ':', '0', ';', 'c']]).foldl
        (procLine ⟨0, (2 : Int) ^ 63 - 1, [], [], false, false⟩) initState =
      [[':', ' ', '1', '0', '0', ':', '0', ';', 'c']].foldl
        (procLine ⟨0, (2 : Int) ^ 63 - 1, [], [], false, false⟩)
        ⟨[['a', '\n'], ['b', '\n']], [['a', '\n'], ['b', '\n']], 2, 0, [], 2⟩ :=
  ⟨⟨by decide, by decide⟩,
    c9_each_preamble_line_kept_individually
      ⟨0, (2 : Int) ^ 63 - 1, [], [], false, false⟩
      [['a'], ['b']] [[':', ' ', '1', '0', '0', ':', '0', ';', 'c']]
      rfl (by decide) (by decide)⟩

end ZHC
